import Mathlib

/-!
Shallow embedding of the POTD tracker core (`src/app/page.tsx`): the
`Problem`/`Stats` data model, `recalculateStatsFromHistory`, `markComplete`
and `markIncomplete`.

Timestamps are modeled as integers (milliseconds since the epoch).
`Date.toDateString` identifies timestamps belonging to the same calendar
day and re-parsing such a string yields the local midnight of that day, so
the string stored in `completedDate` is modeled by the midnight timestamp
`midnightOf now`, and `toDateString` equality is modeled by `dayOf`
equality.  JS `Math.floor` on a real quotient is `Int.fdiv`, and
`Math.round x = ⌊x + 1/2⌋`.
-/

def msPerDay : ℤ := 86400000

/-- Calendar day index of a millisecond timestamp (`Math.floor (t / msPerDay)`). -/
def dayOf (t : ℤ) : ℤ := t.fdiv msPerDay

/-- Midnight timestamp of the calendar day of `t`: the value obtained by
parsing `new Date(t).toDateString()`. -/
def midnightOf (t : ℤ) : ℤ := dayOf t * msPerDay

/-- Model of `Math.round (diffMs / msPerDay)` as used for the pairwise day gap:
`Math.round x = ⌊x + 1/2⌋ = ⌊(2 diffMs + msPerDay) / (2 msPerDay)⌋`. -/
def jsRound (diffMs : ℤ) : ℤ := (2 * diffMs + msPerDay).fdiv (2 * msPerDay)

/-- The `Problem` interface of the source. -/
structure Problem where
  id : String
  title : String
  url : String
  platform : String
  completed : Bool
  completedDate : Option ℤ
deriving Repr, DecidableEq

/-- The `Stats` interface of the source. -/
structure Stats where
  currentStreak : ℤ
  longestStreak : ℤ
  totalCompleted : ℤ
  lastCompletedDate : Option ℤ
deriving Repr, DecidableEq

/-- The component state: the problem store plus the cached stats. -/
structure TrackerState where
  problems : List Problem
  stats : Stats
deriving Repr, DecidableEq

/-- The initial `useState` stats value (lines 75–79):
`{currentStreak: 0, longestStreak: 0, totalCompleted: 0}`. -/
def initialStats : Stats :=
  { currentStreak := 0, longestStreak := 0, totalCompleted := 0, lastCompletedDate := none }

/-- Model of `new Date(p.completedDate!).getTime()`; only evaluated on problems whose
`completedDate` is present. -/
def dOf (p : Problem) : ℤ := p.completedDate.getD 0

/-- The filter `p.completed && p.completedDate` (a missing or empty date
string is falsy). -/
def completedPred (p : Problem) : Bool := p.completed && p.completedDate.isSome

/-- Comparator `(a, b) => new Date(a.completedDate!).getTime() - new
Date(b.completedDate!).getTime()`: ascending order on dates. -/
def dateLe (a b : Problem) : Prop := dOf a ≤ dOf b

instance : DecidableRel dateLe := fun a b => inferInstanceAs (Decidable (dOf a ≤ dOf b))

instance : IsTotal Problem dateLe := ⟨fun a b => le_total (dOf a) (dOf b)⟩

instance : IsTrans Problem dateLe := ⟨fun _ _ _ hab hbc => le_trans hab hbc⟩

/-- Model of `problemList.filter(p => p.completed && p.completedDate).sort(byDate)`. -/
def completedSorted (problemList : List Problem) : List Problem :=
  List.insertionSort dateLe (problemList.filter completedPred)

/-- One iteration of the `for` loop in `recalculateStatsFromHistory`
(lines 156–172).  State: (previous date, currentStreak, longestStreak). -/
def streakStep (st : ℤ × ℤ × ℤ) (d : ℤ) : ℤ × ℤ × ℤ :=
  let diffDays := jsRound (d - st.1)
  let cur := if diffDays = 1 then st.2.1 + 1 else if diffDays > 1 then 1 else st.2.1
  let longest := if cur > st.2.2 then cur else st.2.2
  (d, cur, longest)

/-- The whole loop: starting from the first date with both counters at their
initial values, fold `streakStep` over the remaining dates and return the
final (currentStreak, longestStreak). -/
def walkLoop (prev cur longest : ℤ) (ds : List ℤ) : ℤ × ℤ :=
  let t := ds.foldl streakStep (prev, cur, longest)
  (t.2.1, t.2.2)

/-- Model of `recalculateStatsFromHistory` (lines 133–190).  `prevStats` is the
`stats` closure the function reads, `now` the moment of recomputation
(`new Date()` of line 175). -/
def recalculateStatsFromHistory (prevStats : Stats) (problemList : List Problem)
    (now : ℤ) : Stats :=
  match completedSorted problemList with
  | [] =>
    { currentStreak := 0
      longestStreak := prevStats.longestStreak
      totalCompleted := 0
      lastCompletedDate := none }
  | first :: rest =>
    let walk := walkLoop (dOf first) 1 1 (rest.map dOf)
    let lastCompleted := (first :: rest).getLast (List.cons_ne_nil first rest)
    let diffDaysFromToday := (now - dOf lastCompleted).fdiv msPerDay
    { currentStreak := if diffDaysFromToday > 1 then 0 else walk.1
      longestStreak := max prevStats.longestStreak walk.2
      totalCompleted := ((first :: rest).length : ℤ)
      lastCompletedDate := lastCompleted.completedDate }

/-- The map body of `markComplete` (lines 194–198). -/
def completeUpdate (problemId : String) (today : ℤ) (p : Problem) : Problem :=
  if p.id = problemId then { p with completed := true, completedDate := some today } else p

/-- The incremental streak update of `markComplete` (lines 203–217): if a
prior completion exists, compare its day with the day of `yesterday`
(`now - msPerDay`) and with the day of `now` (the string comparison with
`today`); otherwise start at 1. -/
def incrementalStreak (st : Stats) (now : ℤ) : ℤ :=
  match st.lastCompletedDate with
  | some last =>
    if dayOf last = dayOf (now - msPerDay) then st.currentStreak + 1
    else if dayOf last ≠ dayOf now then 1
    else st.currentStreak
  | none => 1

/-- Model of `markComplete` (lines 192–232).  `today` is `new Date().toDateString()`,
modeled as `midnightOf now`; the `yesterday` comparison is the day of
`now - msPerDay`, and the string comparison with `today` is day equality. -/
def markComplete (s : TrackerState) (now : ℤ) (problemId : String) : TrackerState :=
  let today := midnightOf now
  let updatedProblems := s.problems.map (completeUpdate problemId today)
  let newTotalCompleted := s.stats.totalCompleted + 1
  let newCurrentStreak := incrementalStreak s.stats now
  { problems := updatedProblems
    stats :=
      { currentStreak := newCurrentStreak
        longestStreak := max s.stats.longestStreak newCurrentStreak
        totalCompleted := newTotalCompleted
        lastCompletedDate := some today } }

/-- The map body of `markIncomplete` (lines 235–239). -/
def incompleteUpdate (problemId : String) (p : Problem) : Problem :=
  if p.id = problemId then { p with completed := false, completedDate := none } else p

/-- Model of `markIncomplete` (lines 234–242): clear the flag and date, then fully
recompute the stats from the updated list. -/
def markIncomplete (s : TrackerState) (now : ℤ) (problemId : String) : TrackerState :=
  let updatedProblems := s.problems.map (incompleteUpdate problemId)
  { problems := updatedProblems
    stats := recalculateStatsFromHistory s.stats updatedProblems now }

/-- The operations of the completion recorder / streak engine. -/
inductive Op where
  | complete (problemId : String)
  | incomplete (problemId : String)
  | recompute
deriving Repr, DecidableEq

/-- Run one operation at moment `now`. -/
def applyOp (s : TrackerState) (op : Op) (now : ℤ) : TrackerState :=
  match op with
  | .complete pid => markComplete s now pid
  | .incomplete pid => markIncomplete s now pid
  | .recompute => { s with stats := recalculateStatsFromHistory s.stats s.problems now }

/-- Run a sequence of operations, each with its own moment. -/
def applyOps (s : TrackerState) (ops : List (Op × ℤ)) : TrackerState :=
  ops.foldl (fun st p => applyOp st p.1 p.2) s

-- Sample data used by concrete counterexamples and witnesses.

/-- A problem already completed on day 0. -/
def sampleProblem : Problem :=
  { id := "p1", title := "Two Sum", url := "", platform := "LeetCode",
    completed := true, completedDate := some 0 }

/-- A state holding `sampleProblem` with stats consistent with it at day 0. -/
def sampleDoneState : TrackerState :=
  { problems := [sampleProblem]
    stats := { currentStreak := 1, longestStreak := 1, totalCompleted := 1,
               lastCompletedDate := some 0 } }

/-- A not-yet-completed problem. -/
def freshProblem : Problem :=
  { id := "p1", title := "Two Sum", url := "", platform := "LeetCode",
    completed := false, completedDate := none }

/-- A state holding only `freshProblem`, with the initial zeroed stats. -/
def freshState : TrackerState :=
  { problems := [freshProblem], stats := initialStats }

/-- Last element of a date list, defaulting to the date preceding the list
(proof helper: the carried previous date of the walk). -/
def lastD : ℤ → List ℤ → ℤ
  | prev, [] => prev
  | _, d :: ds => lastD d ds

/-- The running streak value at each element of the walk, exactly as the spec
describes it: 1 at the first element; then for each adjacent pair with
rounded day-gap `g`: `g = 1` increments, `g > 1` resets to 1, otherwise
(same calendar day) unchanged. -/
def runStreaks : ℤ → ℤ → List ℤ → List ℤ
  | _, cur, [] => [cur]
  | prev, cur, d :: ds =>
    cur :: runStreaks d
      (if jsRound (d - prev) = 1 then cur + 1
        else if jsRound (d - prev) > 1 then 1 else cur) ds

/-- Helper: `recalculateStatsFromHistory` expressed on the sorted list of completion
dates alone (proof helper: the resulting Stats depend only on those dates). -/
def recalcDates (prevStats : Stats) (ds : List ℤ) (now : ℤ) : Stats :=
  match ds with
  | [] =>
    { currentStreak := 0
      longestStreak := prevStats.longestStreak
      totalCompleted := 0
      lastCompletedDate := none }
  | d :: rest =>
    let walk := walkLoop d 1 1 rest
    let lastd := lastD d rest
    { currentStreak := if (now - lastd).fdiv msPerDay > 1 then 0 else walk.1
      longestStreak := max prevStats.longestStreak walk.2
      totalCompleted := ((d :: rest).length : ℤ)
      lastCompletedDate := some lastd }

/-- Every completion date of `p` is a midnight timestamp no later than the
midnight of `now` — true of every date the recorder itself writes. -/
def dateOk (now : ℤ) (p : Problem) : Bool :=
  p.completedDate.all fun d => decide (midnightOf d = d) && decide (d ≤ midnightOf now)

/-- The completion dates in sorted order (proof helper). -/
def completedSortedDates (L : List Problem) : List ℤ := (completedSorted L).map dOf

example : (markComplete sampleDoneState 0 "p1").stats.totalCompleted = 2 := by decide

example : (markComplete freshState 0 "p1").stats =
    { currentStreak := 1, longestStreak := 1, totalCompleted := 1,
      lastCompletedDate := some 0 } := by decide

example : recalculateStatsFromHistory initialStats
    [{ sampleProblem with completedDate := some 0 },
     { sampleProblem with id := "p2", completedDate := some 86400000 },
     { sampleProblem with id := "p3", completedDate := some 172800000 }] 172800000 =
    { currentStreak := 3, longestStreak := 3, totalCompleted := 3,
      lastCompletedDate := some 172800000 } := by decide

-- General lemmas about the walk.

lemma ite_gt_eq_max (l c : ℤ) : (if c > l then c else l) = max l c := by
  rcases le_or_lt c l with h | h
  · rw [if_neg (not_lt.mpr h), max_eq_left h]
  · rw [if_pos h, max_eq_right h.le]

lemma walkLoop_nil (prev cur longest : ℤ) : walkLoop prev cur longest [] = (cur, longest) := rfl

lemma walkLoop_cons (prev cur longest d : ℤ) (ds : List ℤ) :
    walkLoop prev cur longest (d :: ds) =
      walkLoop (streakStep (prev, cur, longest) d).1
        (streakStep (prev, cur, longest) d).2.1
        (streakStep (prev, cur, longest) d).2.2 ds := rfl

lemma streakStep_fst (st : ℤ × ℤ × ℤ) (d : ℤ) : (streakStep st d).1 = d := rfl

lemma streakStep_cur (st : ℤ × ℤ × ℤ) (d : ℤ) :
    (streakStep st d).2.1 =
      (if jsRound (d - st.1) = 1 then st.2.1 + 1
        else if jsRound (d - st.1) > 1 then 1 else st.2.1) := rfl

lemma streakStep_longest (st : ℤ × ℤ × ℤ) (d : ℤ) :
    (streakStep st d).2.2 = max st.2.2 (streakStep st d).2.1 :=
  ite_gt_eq_max st.2.2 (streakStep st d).2.1

lemma walkLoop_bounds : ∀ (ds : List ℤ) (prev cur longest : ℤ), cur ≤ longest →
    (walkLoop prev cur longest ds).1 ≤ (walkLoop prev cur longest ds).2 ∧
    longest ≤ (walkLoop prev cur longest ds).2 := by
  intro ds
  induction ds with
  | nil => exact fun prev cur longest h => ⟨h, le_rfl⟩
  | cons d ds ih =>
    intro prev cur longest h
    rw [walkLoop_cons]
    have h2 : (streakStep (prev, cur, longest) d).2.1 ≤ (streakStep (prev, cur, longest) d).2.2 := by
      rw [streakStep_longest]; exact le_max_right _ _
    obtain ⟨ha, hb⟩ := ih (streakStep (prev, cur, longest) d).1
      (streakStep (prev, cur, longest) d).2.1 (streakStep (prev, cur, longest) d).2.2 h2
    refine ⟨ha, le_trans ?_ hb⟩
    rw [streakStep_longest]
    exact le_max_left _ _

-- Monotonicity of the longest streak.

lemma recalc_longest_le (prevStats : Stats) (problemList : List Problem) (now : ℤ) :
    prevStats.longestStreak ≤
      (recalculateStatsFromHistory prevStats problemList now).longestStreak := by
  cases hc : completedSorted problemList with
  | nil => simp [recalculateStatsFromHistory, hc]
  | cons a l => simp [recalculateStatsFromHistory, hc, le_max_left]

lemma applyOp_longest_le (s : TrackerState) (op : Op) (now : ℤ) :
    s.stats.longestStreak ≤ (applyOp s op now).stats.longestStreak := by
  cases op with
  | complete pid => exact le_max_left _ _
  | incomplete pid => exact recalc_longest_le _ _ _
  | recompute => exact recalc_longest_le _ _ _

/-- C4: `longestStreak` is non-decreasing across every sequence of
`markComplete`, `markIncomplete` and recompute operations, including the
empty-history branch of recomputation (which preserves it verbatim). -/
theorem c4_longestStreak_monotone (s : TrackerState) (ops : List (Op × ℤ)) :
    s.stats.longestStreak ≤ (applyOps s ops).stats.longestStreak := by
  induction ops generalizing s with
  | nil => exact le_rfl
  | cons p ops ih => exact le_trans (applyOp_longest_le s p.1 p.2) (ih (applyOp s p.1 p.2))

-- The currentStreak ≤ longestStreak invariant.

lemma recalc_inv (prevStats : Stats) (problemList : List Problem) (now : ℤ)
    (h0 : 0 ≤ prevStats.longestStreak) :
    0 ≤ (recalculateStatsFromHistory prevStats problemList now).longestStreak ∧
    (recalculateStatsFromHistory prevStats problemList now).currentStreak ≤
      (recalculateStatsFromHistory prevStats problemList now).longestStreak := by
  cases hc : completedSorted problemList with
  | nil => simp only [recalculateStatsFromHistory, hc]; exact ⟨h0, h0⟩
  | cons a l =>
    obtain ⟨ha, hb⟩ := walkLoop_bounds (l.map dOf) (dOf a) 1 1 le_rfl
    simp only [recalculateStatsFromHistory, hc]
    refine ⟨le_trans h0 (le_max_left _ _), ?_⟩
    by_cases hl : (now - dOf ((a :: l).getLast (List.cons_ne_nil a l))).fdiv msPerDay > 1
    · rw [if_pos hl]; exact le_trans h0 (le_max_left _ _)
    · rw [if_neg hl]; exact le_trans ha (le_max_right _ _)

lemma markComplete_inv (s : TrackerState) (now : ℤ) (pid : String)
    (h0 : 0 ≤ s.stats.longestStreak) :
    0 ≤ (markComplete s now pid).stats.longestStreak ∧
    (markComplete s now pid).stats.currentStreak ≤
      (markComplete s now pid).stats.longestStreak :=
  ⟨le_trans h0 (le_max_left _ _), le_max_right _ _⟩

lemma applyOp_inv (s : TrackerState) (op : Op) (now : ℤ)
    (h0 : 0 ≤ s.stats.longestStreak) :
    0 ≤ (applyOp s op now).stats.longestStreak ∧
    (applyOp s op now).stats.currentStreak ≤ (applyOp s op now).stats.longestStreak := by
  cases op with
  | complete pid => exact markComplete_inv s now pid h0
  | incomplete pid => exact recalc_inv s.stats _ now h0
  | recompute => exact recalc_inv s.stats s.problems now h0

lemma applyOps_inv (ops : List (Op × ℤ)) : ∀ s : TrackerState,
    0 ≤ s.stats.longestStreak → s.stats.currentStreak ≤ s.stats.longestStreak →
    0 ≤ (applyOps s ops).stats.longestStreak ∧
    (applyOps s ops).stats.currentStreak ≤ (applyOps s ops).stats.longestStreak := by
  induction ops with
  | nil => exact fun s h0 h1 => ⟨h0, h1⟩
  | cons p ops ih =>
    intro s h0 h1
    obtain ⟨g0, g1⟩ := applyOp_inv s p.1 p.2 h0
    exact ih (applyOp s p.1 p.2) g0 g1

/-- C10: starting from the initial zeroed Stats, after any sequence of
operations `currentStreak ≤ longestStreak` holds (every update path takes
`longestStreak` as a max with the new `currentStreak`). -/
theorem c10_currentStreak_le_longestStreak (problems : List Problem) (ops : List (Op × ℤ)) :
    (applyOps ⟨problems, initialStats⟩ ops).stats.currentStreak ≤
      (applyOps ⟨problems, initialStats⟩ ops).stats.longestStreak :=
  (applyOps_inv ops ⟨problems, initialStats⟩ le_rfl le_rfl).2

/-- C8: full recomputation is idempotent — running it a second time on the
same collection at the same moment returns the identical Stats. -/
theorem c8_recalculate_idempotent (prevStats : Stats) (problemList : List Problem) (now : ℤ) :
    recalculateStatsFromHistory (recalculateStatsFromHistory prevStats problemList now)
        problemList now =
      recalculateStatsFromHistory prevStats problemList now := by
  cases hc : completedSorted problemList with
  | nil => simp [recalculateStatsFromHistory, hc]
  | cons a l => simp [recalculateStatsFromHistory, hc, Stats.mk.injEq, max_assoc, max_self]

/-- C1: the claim says marking an already-completed problem leaves
`totalCompleted` unchanged; the code increments it unconditionally (no
already-completed guard on line 202), so re-marking `sampleProblem` takes
the count from 1 to 2. -/
theorem c1_double_mark_changes_totalCompleted :
    sampleProblem.completed = true ∧
    sampleDoneState.stats.totalCompleted = 1 ∧
    (markComplete sampleDoneState 0 "p1").stats.totalCompleted = 2 := by decide

/-- C2: the claim says an unknown id is a stats-preserving no-op whose
failure is surfaced; the code leaves the problem list unchanged but still
increments `totalCompleted`, rewrites the streak fields and
`lastCompletedDate`, and signals nothing. -/
theorem c2_unknown_id_mutates_stats_without_error :
    (∀ p ∈ freshState.problems, p.id ≠ "missing") ∧
    (markComplete freshState 0 "missing").problems = freshState.problems ∧
    (markComplete freshState 0 "missing").stats ≠ freshState.stats := by decide

/-- C5: the claim says `totalCompleted` always equals the number of
problems with `completed = true` after every operation; after re-marking an
already-completed problem the stored count (2) differs from the actual
count (1). -/
theorem c5_totalCompleted_ne_completed_count :
    (markComplete sampleDoneState 0 "p1").stats.totalCompleted ≠
      (((markComplete sampleDoneState 0 "p1").problems.filter fun p => p.completed).length : ℤ) :=
  by decide

/-- C7: with a non-empty completed history, recomputation sets
`currentStreak` to the walk value at the last sorted element unless the
floored day-gap from `now` to the last completion exceeds 1 (then 0), and
sets `lastCompletedDate` to the last element's date in either case. -/
theorem c7_currentStreak_lapse_and_lastDate (prevStats : Stats) (problemList : List Problem)
    (now : ℤ) (first : Problem) (rest : List Problem)
    (hc : completedSorted problemList = first :: rest) :
    (recalculateStatsFromHistory prevStats problemList now).lastCompletedDate =
      ((first :: rest).getLast (List.cons_ne_nil first rest)).completedDate ∧
    (recalculateStatsFromHistory prevStats problemList now).currentStreak =
      (if (now - dOf ((first :: rest).getLast (List.cons_ne_nil first rest))).fdiv msPerDay > 1
        then 0 else (walkLoop (dOf first) 1 1 (rest.map dOf)).1) := by
  unfold recalculateStatsFromHistory
  rw [hc]
  exact ⟨rfl, rfl⟩

/-- Witness for C7: a single completion on day 0 inspected three days
later — the lapse zeroes `currentStreak` while `lastCompletedDate` still
reports day 0. -/
theorem c7_currentStreak_lapse_and_lastDate_witness :
    (recalculateStatsFromHistory initialStats [sampleProblem] 259200000).lastCompletedDate =
      ((sampleProblem :: []).getLast (List.cons_ne_nil sampleProblem [])).completedDate ∧
    (recalculateStatsFromHistory initialStats [sampleProblem] 259200000).currentStreak =
      (if (259200000 - dOf ((sampleProblem :: []).getLast
            (List.cons_ne_nil sampleProblem []))).fdiv msPerDay > 1
        then 0 else (walkLoop (dOf sampleProblem) 1 1 (([] : List Problem).map dOf)).1) :=
  c7_currentStreak_lapse_and_lastDate initialStats [sampleProblem] 259200000 sampleProblem []
    (by decide)

-- The walk agrees with the spec's per-element running-streak description.

lemma getLast?_cons_of_ne_nil {α : Type _} (a : α) {l : List α} (h : l ≠ []) :
    (a :: l).getLast? = l.getLast? := by
  cases l with
  | nil => exact absurd rfl h
  | cons b t => exact List.getLast?_cons_cons

lemma runStreaks_head (prev cur : ℤ) (ds : List ℤ) : (runStreaks prev cur ds).head? = some cur := by
  cases ds <;> rfl

lemma runStreaks_ne_nil (prev cur : ℤ) (ds : List ℤ) : runStreaks prev cur ds ≠ [] := by
  cases ds <;> simp [runStreaks]

lemma foldl_max_head (a : ℤ) (t : List ℤ) (c : ℤ) (hh : t.head? = some c) :
    List.foldl max (max a c) t = List.foldl max a t := by
  cases t with
  | nil => cases hh
  | cons x t' =>
    have hx : x = c := Option.some.inj hh
    subst hx
    show List.foldl max (max (max a x) x) t' = List.foldl max (max a x) t'
    rw [max_assoc, max_self]

lemma jsRound_nonneg {x : ℤ} (h : 0 ≤ x) : 0 ≤ jsRound x := by
  have hm : (0:ℤ) ≤ msPerDay := by norm_num [msPerDay]
  exact Int.fdiv_nonneg (by linarith) (by linarith)

lemma walkLoop_eq_runStreaks : ∀ (ds : List ℤ) (prev cur longest : ℤ), cur ≤ longest →
    (runStreaks prev cur ds).getLast? = some (walkLoop prev cur longest ds).1 ∧
    (walkLoop prev cur longest ds).2 = (runStreaks prev cur ds).foldl max longest := by
  intro ds
  induction ds with
  | nil =>
    intro prev cur longest h
    refine ⟨rfl, ?_⟩
    show longest = max longest cur
    exact (max_eq_left h).symm
  | cons d ds ih =>
    intro prev cur longest h
    rw [walkLoop_cons, streakStep_longest, streakStep_cur, streakStep_fst]
    simp only [runStreaks]
    obtain ⟨ihA, ihB⟩ := ih d
      (if jsRound (d - prev) = 1 then cur + 1 else if jsRound (d - prev) > 1 then 1 else cur)
      (max longest (if jsRound (d - prev) = 1 then cur + 1
        else if jsRound (d - prev) > 1 then 1 else cur))
      (le_max_right _ _)
    constructor
    · rw [getLast?_cons_of_ne_nil cur (runStreaks_ne_nil _ _ _)]
      exact ihA
    · rw [List.foldl_cons, max_eq_left h, ihB,
        foldl_max_head longest _ _ (runStreaks_head _ _ _)]

/-- C6: over a date list sorted ascending, the walk's recurrence is exactly
the spec's: the running streak starts at 1 on the first element, a rounded
gap of 1 increments it, a gap above 1 resets it to 1, and a gap of 0 (the
only remaining case on sorted input: every rounded gap is nonnegative)
leaves it unchanged; the candidate longest streak is the maximum running
value seen. -/
theorem c6_walk_recurrence (d0 : ℤ) (ds : List ℤ)
    (hsorted : List.Sorted (· ≤ ·) (d0 :: ds)) :
    (runStreaks d0 1 ds).head? = some 1 ∧
    (runStreaks d0 1 ds).getLast? = some (walkLoop d0 1 1 ds).1 ∧
    (walkLoop d0 1 1 ds).2 = (runStreaks d0 1 ds).foldl max 1 ∧
    (d0 :: ds).Chain' (fun a b => 0 ≤ jsRound (b - a)) := by
  obtain ⟨hA, hB⟩ := walkLoop_eq_runStreaks ds d0 1 1 le_rfl
  refine ⟨runStreaks_head d0 1 ds, hA, hB, ?_⟩
  have hchain : (d0 :: ds).Chain' (· ≤ ·) := List.chain'_iff_pairwise.mpr hsorted
  exact hchain.imp fun _ _ hab => jsRound_nonneg (sub_nonneg.mpr hab)

/-- Witness for C6: three completions on consecutive days 0, 1, 2. -/
theorem c6_walk_recurrence_witness :
    (runStreaks 0 1 [86400000, 172800000]).head? = some 1 ∧
    (runStreaks 0 1 [86400000, 172800000]).getLast? =
      some (walkLoop 0 1 1 [86400000, 172800000]).1 ∧
    (walkLoop 0 1 1 [86400000, 172800000]).2 =
      (runStreaks 0 1 [86400000, 172800000]).foldl max 1 ∧
    ((0 : ℤ) :: [86400000, 172800000]).Chain' (fun a b => 0 ≤ jsRound (b - a)) :=
  c6_walk_recurrence 0 [86400000, 172800000] (by decide)

-- Round trip mark-complete / mark-incomplete.

lemma filter_map_eq_of_benign (L : List Problem) (w : Problem → Problem)
    (hw : ∀ p ∈ L, w p = p ∨ (completedPred (w p) = false ∧ completedPred p = false)) :
    (L.map w).filter completedPred = L.filter completedPred := by
  induction L with
  | nil => rfl
  | cons p L ih =>
    have htail := ih fun q hq => hw q (List.mem_cons_of_mem p hq)
    rcases hw p (List.mem_cons_self p L) with h | ⟨h1, h2⟩
    · simp only [List.map_cons, List.filter_cons, h, htail]
    · simp only [List.map_cons, List.filter_cons, h1, h2, htail, Bool.false_eq_true,
        if_false]

lemma recalc_nil_fields (P : Stats) (L : List Problem) (now : ℤ)
    (hc : completedSorted L = []) :
    recalculateStatsFromHistory P L now =
      { currentStreak := 0, longestStreak := P.longestStreak,
        totalCompleted := 0, lastCompletedDate := none } := by
  unfold recalculateStatsFromHistory
  rw [hc]

lemma recalc_cons_fields (P : Stats) (L : List Problem) (now : ℤ) (a : Problem)
    (l : List Problem) (hc : completedSorted L = a :: l) :
    recalculateStatsFromHistory P L now =
      { currentStreak :=
          if (now - dOf ((a :: l).getLast (List.cons_ne_nil a l))).fdiv msPerDay > 1
            then 0 else (walkLoop (dOf a) 1 1 (l.map dOf)).1
        longestStreak := max P.longestStreak (walkLoop (dOf a) 1 1 (l.map dOf)).2
        totalCompleted := ((a :: l).length : ℤ)
        lastCompletedDate := ((a :: l).getLast (List.cons_ne_nil a l)).completedDate } := by
  unfold recalculateStatsFromHistory
  rw [hc]

/-- C9 counterexample: marking the fresh problem complete and then
immediately incomplete (same moment, so no lapse) does not restore the
pre-mark Stats — `longestStreak` stays at the value 1 set by the mark. -/
theorem c9_counterexample_roundtrip :
    freshProblem.completed = false ∧
    (markIncomplete (markComplete freshState 0 "p1") 0 "p1").stats ≠ freshState.stats := by
  decide

/-- C9 (amended): if every problem matching the id is not yet completed and
the cached Stats is a fixed point of recomputation at `now`, then
mark-complete followed immediately by mark-incomplete (same moment, so no
lapse) restores `currentStreak`, `totalCompleted` and `lastCompletedDate`
exactly; `longestStreak` instead remains at the post-mark value
(`max` of its pre-mark value and the streak the mark produced), so it is
restored exactly iff the mark set no new record. -/
theorem c9_roundtrip_amended (s : TrackerState) (problemId : String) (now : ℤ)
    (hinc : ∀ p ∈ s.problems, p.id = problemId → p.completed = false)
    (hfix : s.stats = recalculateStatsFromHistory s.stats s.problems now) :
    (markIncomplete (markComplete s now problemId) now problemId).stats.currentStreak =
        s.stats.currentStreak ∧
    (markIncomplete (markComplete s now problemId) now problemId).stats.totalCompleted =
        s.stats.totalCompleted ∧
    (markIncomplete (markComplete s now problemId) now problemId).stats.lastCompletedDate =
        s.stats.lastCompletedDate ∧
    (markIncomplete (markComplete s now problemId) now problemId).stats.longestStreak =
        (markComplete s now problemId).stats.longestStreak := by
  have hfe : ((s.problems.map (completeUpdate problemId (midnightOf now))).map
        (incompleteUpdate problemId)).filter completedPred =
      s.problems.filter completedPred := by
    rw [List.map_map]
    apply filter_map_eq_of_benign
    intro p hp
    by_cases hid : p.id = problemId
    · right
      refine ⟨?_, ?_⟩
      · simp [Function.comp, incompleteUpdate, completeUpdate, hid, completedPred]
      · simp [completedPred, hinc p hp hid]
    · left
      simp [Function.comp, incompleteUpdate, completeUpdate, hid]
  have hcs : completedSorted ((s.problems.map (completeUpdate problemId (midnightOf now))).map
        (incompleteUpdate problemId)) = completedSorted s.problems := by
    unfold completedSorted
    rw [hfe]
  have hrt : (markIncomplete (markComplete s now problemId) now problemId).stats =
      recalculateStatsFromHistory (markComplete s now problemId).stats
        ((s.problems.map (completeUpdate problemId (midnightOf now))).map
          (incompleteUpdate problemId)) now := rfl
  cases hc : completedSorted s.problems with
  | nil =>
    rw [recalc_nil_fields _ _ _ hc] at hfix
    rw [hrt, recalc_nil_fields _ _ _ (hcs.trans hc), hfix]
    exact ⟨rfl, rfl, rfl, rfl⟩
  | cons a l =>
    rw [recalc_cons_fields _ _ _ a l hc] at hfix
    rw [hrt, recalc_cons_fields _ _ _ a l (hcs.trans hc)]
    refine ⟨(congrArg Stats.currentStreak hfix).symm,
      (congrArg Stats.totalCompleted hfix).symm,
      (congrArg Stats.lastCompletedDate hfix).symm, ?_⟩
    have hw2 : (walkLoop (dOf a) 1 1 (l.map dOf)).2 ≤ s.stats.longestStreak :=
      max_eq_left_iff.mp (congrArg Stats.longestStreak hfix).symm
    show max (markComplete s now problemId).stats.longestStreak
        (walkLoop (dOf a) 1 1 (l.map dOf)).2 = (markComplete s now problemId).stats.longestStreak
    exact max_eq_left (le_trans hw2 (le_max_left _ _))

-- Calendar-day arithmetic.

lemma msPerDay_pos : (0:ℤ) < msPerDay := by norm_num [msPerDay]

lemma dayOf_eq_ediv (t : ℤ) : dayOf t = t / msPerDay :=
  Int.fdiv_eq_ediv t (le_of_lt msPerDay_pos)

lemma midnightOf_add_emod (t : ℤ) : midnightOf t + t % msPerDay = t := by
  rw [midnightOf, dayOf_eq_ediv, mul_comm]
  exact Int.ediv_add_emod t msPerDay

lemma emod_msPerDay_nonneg (t : ℤ) : 0 ≤ t % msPerDay :=
  Int.emod_nonneg t (ne_of_gt msPerDay_pos)

lemma emod_msPerDay_lt (t : ℤ) : t % msPerDay < msPerDay :=
  Int.emod_lt_of_pos t msPerDay_pos

lemma dayOf_mul_add (k r : ℤ) (h0 : 0 ≤ r) (h1 : r < msPerDay) :
    dayOf (k * msPerDay + r) = k := by
  rw [dayOf_eq_ediv, add_comm, Int.add_mul_ediv_right r k (ne_of_gt msPerDay_pos),
    Int.ediv_eq_zero_of_lt h0 h1, zero_add]

lemma dayOf_midnightOf (t : ℤ) : dayOf (midnightOf t) = dayOf t := by
  rw [midnightOf, dayOf_eq_ediv, Int.mul_ediv_cancel _ (ne_of_gt msPerDay_pos)]

lemma midnightOf_idem (t : ℤ) : midnightOf (midnightOf t) = midnightOf t := by
  show dayOf (midnightOf t) * msPerDay = midnightOf t
  rw [dayOf_midnightOf]
  rfl

lemma fdiv_sub_midnight (now d : ℤ) (hd : midnightOf d = d) :
    (now - d).fdiv msPerDay = dayOf now - dayOf d := by
  have h3 : dayOf d * msPerDay = d := hd
  have h2 : midnightOf now + now % msPerDay = now := midnightOf_add_emod now
  rw [midnightOf] at h2
  have h1 : now - d = (dayOf now - dayOf d) * msPerDay + now % msPerDay := by
    rw [sub_mul]
    linarith
  show dayOf (now - d) = dayOf now - dayOf d
  rw [h1, dayOf_mul_add _ _ (emod_msPerDay_nonneg now) (emod_msPerDay_lt now)]

lemma dayOf_sub_msPerDay (now : ℤ) : dayOf (now - msPerDay) = dayOf now - 1 := by
  have h2 : midnightOf now + now % msPerDay = now := midnightOf_add_emod now
  rw [midnightOf] at h2
  have h1 : now - msPerDay = (dayOf now - 1) * msPerDay + now % msPerDay := by
    rw [sub_mul]
    linarith
  rw [h1, dayOf_mul_add _ _ (emod_msPerDay_nonneg now) (emod_msPerDay_lt now)]

lemma jsRound_day_mul (k : ℤ) : jsRound (k * msPerDay) = k := by
  unfold jsRound
  rw [Int.fdiv_eq_ediv _ (by norm_num [msPerDay] : (0:ℤ) ≤ 2 * msPerDay)]
  have h : 2 * (k * msPerDay) + msPerDay = msPerDay + k * (2 * msPerDay) := by ring
  rw [h, Int.add_mul_ediv_right msPerDay k (by norm_num [msPerDay] : (2 * msPerDay : ℤ) ≠ 0),
    Int.ediv_eq_zero_of_lt (le_of_lt msPerDay_pos) (by norm_num [msPerDay]), zero_add]

lemma dayOf_mono {a b : ℤ} (h : a ≤ b) : dayOf a ≤ dayOf b := by
  rw [dayOf_eq_ediv, dayOf_eq_ediv]
  exact Int.ediv_le_ediv msPerDay_pos h

lemma lapse_at_midnight (now : ℤ) : (now - midnightOf now).fdiv msPerDay = 0 := by
  rw [fdiv_sub_midnight now (midnightOf now) (midnightOf_idem now), dayOf_midnightOf, sub_self]

-- The sorted completed list and its dates.

lemma completedSorted_perm (L : List Problem) :
    List.Perm (completedSorted L) (L.filter completedPred) :=
  List.perm_insertionSort dateLe (L.filter completedPred)

lemma completedSorted_sorted (L : List Problem) :
    List.Sorted dateLe (completedSorted L) :=
  List.sorted_insertionSort dateLe (L.filter completedPred)

lemma mem_completedSorted_mem {L : List Problem} {p : Problem}
    (hp : p ∈ completedSorted L) : p ∈ L :=
  (List.mem_filter.mp ((completedSorted_perm L).mem_iff.mp hp)).1

lemma mem_completedSorted_date {L : List Problem} {p : Problem}
    (hp : p ∈ completedSorted L) : p.completedDate = some (dOf p) := by
  have hpred := (List.mem_filter.mp ((completedSorted_perm L).mem_iff.mp hp)).2
  simp only [completedPred, Bool.and_eq_true] at hpred
  obtain ⟨x, hx⟩ := Option.isSome_iff_exists.mp hpred.2
  rw [hx]
  simp [dOf, hx]

lemma completedSortedDates_sorted (L : List Problem) :
    List.Sorted (· ≤ ·) (completedSortedDates L) :=
  List.Pairwise.map dOf (fun _ _ h => h) (completedSorted_sorted L)

lemma completedSortedDates_ok {L : List Problem} {now : ℤ}
    (hdates : ∀ p ∈ L, dateOk now p = true) :
    ∀ x ∈ completedSortedDates L, midnightOf x = x ∧ x ≤ midnightOf now := by
  intro x hx
  obtain ⟨p, hp, hpx⟩ := List.mem_map.mp hx
  have hdate := mem_completedSorted_date hp
  have hok := hdates p (mem_completedSorted_mem hp)
  simp only [dateOk, hdate, Option.all_some, Bool.and_eq_true, decide_eq_true_eq] at hok
  rw [← hpx]
  exact hok

-- lastD and the walk over an appended last date.

lemma lastD_append (d : ℤ) (ds : List ℤ) (m : ℤ) : lastD d (ds ++ [m]) = m := by
  induction ds generalizing d with
  | nil => rfl
  | cons e ds ih => exact ih e

lemma lastD_mem (d : ℤ) (ds : List ℤ) : lastD d ds = d ∨ lastD d ds ∈ ds := by
  induction ds generalizing d with
  | nil => exact Or.inl rfl
  | cons e ds ih =>
    rcases ih e with h | h
    · right
      show lastD e ds ∈ e :: ds
      rw [h]
      exact List.mem_cons_self e ds
    · right
      show lastD e ds ∈ e :: ds
      exact List.mem_cons_of_mem e h

lemma dOf_getLast (rest : List Problem) (first : Problem) :
    dOf ((first :: rest).getLast (List.cons_ne_nil first rest)) =
      lastD (dOf first) (rest.map dOf) := by
  induction rest generalizing first with
  | nil => rfl
  | cons q qs ih =>
    rw [List.getLast_cons (List.cons_ne_nil q qs)]
    exact ih q

lemma foldl_streakStep_fst (ds : List ℤ) : ∀ st : ℤ × ℤ × ℤ,
    (ds.foldl streakStep st).1 = lastD st.1 ds := by
  induction ds with
  | nil => intro st; rfl
  | cons d ds ih => intro st; exact ih (streakStep st d)

lemma walkLoop_append (d0 m : ℤ) (ds : List ℤ) :
    walkLoop d0 1 1 (ds ++ [m]) =
      ((streakStep (ds.foldl streakStep (d0, 1, 1)) m).2.1,
       (streakStep (ds.foldl streakStep (d0, 1, 1)) m).2.2) := by
  unfold walkLoop
  rw [List.foldl_append]
  rfl

lemma recalcDates_nil (P : Stats) (now : ℤ) :
    recalcDates P [] now =
      { currentStreak := 0, longestStreak := P.longestStreak,
        totalCompleted := 0, lastCompletedDate := none } := rfl

lemma recalcDates_cons (P : Stats) (now d : ℤ) (rest : List ℤ) :
    recalcDates P (d :: rest) now =
      { currentStreak := if (now - lastD d rest).fdiv msPerDay > 1
          then 0 else (walkLoop d 1 1 rest).1
        longestStreak := max P.longestStreak (walkLoop d 1 1 rest).2
        totalCompleted := ((d :: rest).length : ℤ)
        lastCompletedDate := some (lastD d rest) } := rfl

lemma recalc_eq_recalcDates (P : Stats) (L : List Problem) (now : ℤ) :
    recalculateStatsFromHistory P L now = recalcDates P (completedSortedDates L) now := by
  cases hc : completedSorted L with
  | nil =>
    have hd : completedSortedDates L = [] := by
      unfold completedSortedDates; rw [hc]; rfl
    rw [recalc_nil_fields P L now hc, hd, recalcDates_nil]
  | cons a l =>
    have hd : completedSortedDates L = dOf a :: l.map dOf := by
      unfold completedSortedDates; rw [hc]; rfl
    have hmem : (a :: l).getLast (List.cons_ne_nil a l) ∈ completedSorted L := by
      rw [hc]; exact List.getLast_mem _
    have hdate := mem_completedSorted_date hmem
    rw [recalc_cons_fields P L now a l hc, hd, recalcDates_cons, Stats.mk.injEq]
    refine ⟨?_, rfl, ?_, ?_⟩
    · rw [dOf_getLast]
    · simp [List.length_map]
    · rw [hdate, dOf_getLast]

-- Marking one not-yet-completed problem appends exactly one date.

lemma filter_completeUpdate_dates (problemId : String) (m : ℤ) :
    ∀ L : List Problem,
    L.countP (fun p => p.id == problemId) = 1 →
    (∀ p ∈ L, p.id = problemId → p.completed = false) →
    List.Perm (((L.map (completeUpdate problemId m)).filter completedPred).map dOf)
      (m :: (L.filter completedPred).map dOf) := by
  intro L
  induction L with
  | nil => intro h1 _; simp at h1
  | cons p L ih =>
    intro h1 h2
    by_cases hid : p.id = problemId
    · have hzero : L.countP (fun p => p.id == problemId) = 0 := by
        rw [List.countP_cons_of_pos _ L (by simp [hid])] at h1
        omega
      have hmapL : L.map (completeUpdate problemId m) = L := by
        have hnone := List.countP_eq_zero.mp hzero
        calc L.map (completeUpdate problemId m) = L.map id := by
              apply List.map_congr_left
              intro a ha
              have hne : ¬a.id = problemId := by
                intro hq
                exact hnone a ha (by simp [hq])
              simp [completeUpdate, hne]
          _ = L := List.map_id L
      have hpc : p.completed = false := h2 p (List.mem_cons_self p L) hid
      have hpredf : completedPred p = false := by simp [completedPred, hpc]
      have hpredt : completedPred (completeUpdate problemId m p) = true := by
        simp [completeUpdate, hid, completedPred]
      have hdOf : dOf (completeUpdate problemId m p) = m := by
        simp [completeUpdate, hid, dOf]
      simp only [List.map_cons, hmapL, List.filter_cons, hpredt, if_true, hpredf,
        Bool.false_eq_true, if_false, List.map_cons, hdOf]
      exact List.Perm.refl _
    · have hp_eq : completeUpdate problemId m p = p := by
        simp [completeUpdate, hid]
      have h1' : L.countP (fun p => p.id == problemId) = 1 := by
        rw [List.countP_cons_of_neg _ L (by simp [hid])] at h1
        exact h1
      have hperm := ih h1' fun q hq => h2 q (List.mem_cons_of_mem p hq)
      by_cases hpred : completedPred p = true
      · simp only [List.map_cons, hp_eq, List.filter_cons, hpred, if_true, List.map_cons]
        exact List.Perm.trans (hperm.cons (dOf p)) (List.Perm.swap m (dOf p) _)
      · have hpredf : completedPred p = false := by
          revert hpred; cases completedPred p <;> simp
        simp only [List.map_cons, hp_eq, List.filter_cons, hpredf, Bool.false_eq_true,
          if_false]
        exact hperm

lemma completedSortedDates_update (L : List Problem) (problemId : String) (m : ℤ)
    (h1 : L.countP (fun p => p.id == problemId) = 1)
    (h2 : ∀ p ∈ L, p.id = problemId → p.completed = false)
    (h3 : ∀ x ∈ completedSortedDates L, x ≤ m) :
    completedSortedDates (L.map (completeUpdate problemId m)) =
      completedSortedDates L ++ [m] := by
  apply List.eq_of_perm_of_sorted ?_ (completedSortedDates_sorted _) ?_
  · refine List.Perm.trans ((completedSorted_perm _).map dOf) ?_
    refine List.Perm.trans (filter_completeUpdate_dates problemId m L h1 h2) ?_
    refine List.Perm.trans ((((completedSorted_perm L).map dOf).symm).cons m) ?_
    exact (List.perm_append_singleton m _).symm
  · show List.Pairwise (· ≤ ·) (completedSortedDates L ++ [m])
    rw [List.pairwise_append]
    refine ⟨completedSortedDates_sorted L, List.pairwise_singleton _ m, ?_⟩
    intro x hx y hy
    rw [List.mem_singleton] at hy
    rw [hy]
    exact h3 x hx

-- Incremental update vs full recomputation.

lemma markComplete_stats (s : TrackerState) (now : ℤ) (problemId : String) :
    (markComplete s now problemId).stats =
      { currentStreak := incrementalStreak s.stats now
        longestStreak := max s.stats.longestStreak (incrementalStreak s.stats now)
        totalCompleted := s.stats.totalCompleted + 1
        lastCompletedDate := some (midnightOf now) } := rfl

lemma incrementalStreak_none (st : Stats) (now : ℤ) (h : st.lastCompletedDate = none) :
    incrementalStreak st now = 1 := by
  unfold incrementalStreak
  rw [h]

lemma incrementalStreak_some (st : Stats) (now last : ℤ)
    (h : st.lastCompletedDate = some last) :
    incrementalStreak st now =
      (if dayOf last = dayOf (now - msPerDay) then st.currentStreak + 1
        else if dayOf last ≠ dayOf now then 1
        else st.currentStreak) := by
  unfold incrementalStreak
  rw [h]

/-- C3 counterexample: the claim quantifies over every store state and every
valid (existing) problem id, but re-marking the already-completed
`sampleProblem` makes the incremental Stats (totalCompleted 2) differ from
a full recomputation over the updated list (totalCompleted 1). -/
theorem c3_counterexample_incremental_ne_recompute :
    (∃ p ∈ sampleDoneState.problems, p.id = "p1") ∧
    (markComplete sampleDoneState 0 "p1").stats ≠
      recalculateStatsFromHistory sampleDoneState.stats
        (markComplete sampleDoneState 0 "p1").problems 0 := by
  decide

/-- C3 (amended): the incremental Stats update of `markComplete` agrees with
a full recomputation over the updated problem list when (a) exactly one
problem matches the id and it is not yet completed, (b) the cached Stats is
a fixed point of recomputation at `now`, and (c) every stored completion
date is a calendar-day midnight no later than today's midnight (as is true
of every date the recorder writes). -/
theorem c3_incremental_matches_recompute_amended (s : TrackerState) (problemId : String)
    (now : ℤ)
    (hone : s.problems.countP (fun p => p.id == problemId) = 1)
    (hinc : ∀ p ∈ s.problems, p.id = problemId → p.completed = false)
    (hfix : s.stats = recalculateStatsFromHistory s.stats s.problems now)
    (hdates : ∀ p ∈ s.problems, dateOk now p = true) :
    (markComplete s now problemId).stats =
      recalculateStatsFromHistory s.stats (markComplete s now problemId).problems now := by
  have hbound := completedSortedDates_ok hdates
  have hupd : completedSortedDates (s.problems.map (completeUpdate problemId
        (midnightOf now))) = completedSortedDates s.problems ++ [midnightOf now] :=
    completedSortedDates_update _ _ _ hone hinc fun x hx => (hbound x hx).2
  have hR : recalculateStatsFromHistory s.stats (markComplete s now problemId).problems now =
      recalcDates s.stats (completedSortedDates s.problems ++ [midnightOf now]) now := by
    rw [recalc_eq_recalcDates,
      show (markComplete s now problemId).problems =
        s.problems.map (completeUpdate problemId (midnightOf now)) from rfl, hupd]
  rw [recalc_eq_recalcDates] at hfix
  rw [hR]
  cases hsd : completedSortedDates s.problems with
  | nil =>
    rw [hsd, recalcDates_nil] at hfix
    have hnone : s.stats.lastCompletedDate = none := congrArg Stats.lastCompletedDate hfix
    have htot : s.stats.totalCompleted = 0 := congrArg Stats.totalCompleted hfix
    rw [List.nil_append, markComplete_stats, recalcDates_cons,
      incrementalStreak_none s.stats now hnone, htot, Stats.mk.injEq]
    refine ⟨?_, rfl, by norm_num, rfl⟩
    show (1:ℤ) = if (now - midnightOf now).fdiv msPerDay > 1 then 0
      else (walkLoop (midnightOf now) 1 1 []).1
    rw [lapse_at_midnight, if_neg (by norm_num : ¬((0:ℤ) > 1))]
    rfl
  | cons d0 ds =>
    rw [hsd, recalcDates_cons] at hfix
    have hplin : lastD d0 ds ∈ completedSortedDates s.problems := by
      rw [hsd]
      rcases lastD_mem d0 ds with h | h
      · rw [h]; exact List.mem_cons_self _ _
      · exact List.mem_cons_of_mem _ h
    obtain ⟨hplmid, hplle⟩ := hbound _ hplin
    have hk0 : 0 ≤ dayOf now - dayOf (lastD d0 ds) := by
      have hmono := dayOf_mono hplle
      rw [dayOf_midnightOf] at hmono
      linarith
    have hlapse_old : (now - lastD d0 ds).fdiv msPerDay =
        dayOf now - dayOf (lastD d0 ds) := fdiv_sub_midnight now _ hplmid
    have hgap : midnightOf now - lastD d0 ds =
        (dayOf now - dayOf (lastD d0 ds)) * msPerDay := by
      rw [sub_mul]
      have h1 : dayOf (lastD d0 ds) * msPerDay = lastD d0 ds := hplmid
      rw [h1]
      rfl
    have hground : jsRound (midnightOf now - lastD d0 ds) =
        dayOf now - dayOf (lastD d0 ds) := by
      rw [hgap, jsRound_day_mul]
    have hcur_fix : s.stats.currentStreak =
        if (now - lastD d0 ds).fdiv msPerDay > 1 then 0 else (walkLoop d0 1 1 ds).1 :=
      congrArg Stats.currentStreak hfix
    have htot_fix : s.stats.totalCompleted = ((d0 :: ds).length : ℤ) :=
      congrArg Stats.totalCompleted hfix
    have hlast_fix : s.stats.lastCompletedDate = some (lastD d0 ds) :=
      congrArg Stats.lastCompletedDate hfix
    have hw2 : (walkLoop d0 1 1 ds).2 ≤ s.stats.longestStreak :=
      max_eq_left_iff.mp (congrArg Stats.longestStreak hfix).symm
    have hwalk1 : (walkLoop d0 1 1 (ds ++ [midnightOf now])).1 =
        (if jsRound (midnightOf now - lastD d0 ds) = 1 then (walkLoop d0 1 1 ds).1 + 1
          else if jsRound (midnightOf now - lastD d0 ds) > 1 then 1
          else (walkLoop d0 1 1 ds).1) := by
      rw [walkLoop_append, streakStep_cur, foldl_streakStep_fst]
      rfl
    have hwalk2 : (walkLoop d0 1 1 (ds ++ [midnightOf now])).2 =
        max (walkLoop d0 1 1 ds).2 (walkLoop d0 1 1 (ds ++ [midnightOf now])).1 := by
      rw [walkLoop_append]
      exact streakStep_longest _ _
    have hcur_new : incrementalStreak s.stats now =
        (walkLoop d0 1 1 (ds ++ [midnightOf now])).1 := by
      rw [incrementalStreak_some s.stats now _ hlast_fix, hwalk1, hground,
        dayOf_sub_msPerDay, hcur_fix, hlapse_old]
      by_cases h1 : dayOf (lastD d0 ds) = dayOf now - 1
      · rw [if_pos h1]
        have h3 : dayOf now - dayOf (lastD d0 ds) = 1 := by omega
        rw [h3]
        norm_num
      · rw [if_neg h1]
        by_cases h2 : dayOf (lastD d0 ds) = dayOf now
        · rw [if_neg (not_not_intro h2)]
          have h3 : dayOf now - dayOf (lastD d0 ds) = 0 := by omega
          rw [h3]
          norm_num
        · rw [if_pos h2]
          have h4 : ¬(dayOf now - dayOf (lastD d0 ds) = 1) := by omega
          have h5 : dayOf now - dayOf (lastD d0 ds) > 1 := by omega
          rw [if_neg h4, if_pos h5]
    rw [markComplete_stats, List.cons_append, recalcDates_cons,
      lastD_append, lapse_at_midnight, Stats.mk.injEq]
    refine ⟨?_, ?_, ?_, rfl⟩
    · rw [hcur_new, if_neg (by norm_num : ¬((0:ℤ) > 1))]
    · rw [hcur_new, hwalk2, ← max_assoc, max_eq_left hw2]
    · rw [htot_fix]
      simp only [List.length_cons, List.length_append, List.length_nil]
      push_cast
      ring
/-- Witness for C3 (amended): a fresh single-problem store with zeroed
stats at moment 0. -/
theorem c3_incremental_matches_recompute_witness :
    (markComplete freshState 0 "p1").stats =
      recalculateStatsFromHistory freshState.stats (markComplete freshState 0 "p1").problems 0 :=
  c3_incremental_matches_recompute_amended freshState ("p1") 0 (by decide) (by decide)
    (by decide) (by decide)

/-- Witness for C9 (amended): the fresh single-problem store with zeroed
stats, marked and unmarked at moment 0. -/
theorem c9_roundtrip_amended_witness :
    (markIncomplete (markComplete freshState 0 ("p1")) 0 ("p1")).stats.currentStreak =
        freshState.stats.currentStreak ∧
    (markIncomplete (markComplete freshState 0 ("p1")) 0 ("p1")).stats.totalCompleted =
        freshState.stats.totalCompleted ∧
    (markIncomplete (markComplete freshState 0 ("p1")) 0 ("p1")).stats.lastCompletedDate =
        freshState.stats.lastCompletedDate ∧
    (markIncomplete (markComplete freshState 0 ("p1")) 0 ("p1")).stats.longestStreak =
        (markComplete freshState 0 ("p1")).stats.longestStreak :=
  c9_roundtrip_amended freshState ("p1") 0 (by decide) (by decide)
